import Mathlib

/-!
Shallow embedding of the portfolio valuation and tax-lot computation layer of
the IntelliInvestor server (Express + Mongoose application).

Source files embedded here:
  * `server/models/portfolio.model.js` — `InvestmentSchema`, `PortfolioSchema`
    and the `PortfolioSchema.pre('save')` aggregation hook;
  * `server/routes/tax.routes.js` — the `/calculate-gains` and
    `/tax-loss-harvesting` handlers;
  * `server/routes/portfolio.routes.js` — create / update portfolio,
    update investment, and `/:id/refresh` handlers.

Modelling conventions:
  * JavaScript numbers are modelled as `ℚ` (the claims under study do not
    depend on binary floating-point rounding, and `NaN` never arises on the
    modelled paths);
  * JavaScript `Date` values are modelled by their millisecond timestamp
    (`ℤ`).  `Date.prototype.getFullYear` is a calendar function of that
    timestamp; since the code never relates the year and the timestamp
    arithmetically, a lot carries its purchase year as a separate field
    `purchaseYear`, abstracting `new Date(purchaseDate).getFullYear()`;
  * a JavaScript value that may be `undefined` is an `Option`;
  * JS truthiness on a number `q : ℚ` is `q ≠ 0` (0 and NaN are the falsy
    numbers; NaN is not representable here), and on a string it is
    non-emptiness;
  * a thrown-and-caught exception from the quote source is `Option.none`;
  * the Mongo collection of portfolios is a `List Portfolio` in natural
    (insertion) order; `findOne` is `List.find?` (first match).
-/

/-- JS `a || b` for numbers: `a` when truthy (nonzero; NaN is not modelled),
else `b`. -/
def jsOr (a b : ℚ) : ℚ := if a = 0 then b else a

/-- JS `a || b` where `a` is an optional string: `a` when present and
non-empty, else `b`. -/
def jsOrStr (a : Option String) (b : String) : String :=
  match a with
  | none => b
  | some s => if s = "" then b else s

/-- One investment lot, from `InvestmentSchema` in
`server/models/portfolio.model.js`.  `currentPrice` has schema default `0`;
`invId` models the Mongo subdocument `_id`. -/
structure Investment where
  invId : ℕ
  symbol : String
  name : Option String
  shares : ℚ
  purchasePrice : ℚ
  /-- Millisecond timestamp of `purchaseDate`. -/
  purchaseDateMs : ℤ
  /-- Abstracts `new Date(purchaseDate).getFullYear()`. -/
  purchaseYear : ℤ
  sector : Option String
  notes : Option String
  currentPrice : ℚ
  /-- Millisecond timestamp of `lastUpdated`. -/
  lastUpdatedMs : ℤ
deriving Repr, DecidableEq

/-- A portfolio document, from `PortfolioSchema` in
`server/models/portfolio.model.js`.  `id` models the Mongo `_id`, `userId`
the `user` reference. -/
structure Portfolio where
  id : ℕ
  userId : ℕ
  name : String
  description : Option String
  investments : List Investment
  totalValue : ℚ
  totalCost : ℚ
  updatedAtMs : ℤ
  isDefault : Bool
deriving Repr, DecidableEq

/-- The effective per-share valuation price of a lot: the code's
`investment.currentPrice || investment.purchasePrice`. -/
def effectivePrice (inv : Investment) : ℚ :=
  jsOr inv.currentPrice inv.purchasePrice

/-- `this.investments.reduce((total, inv) => total + inv.purchasePrice * inv.shares, 0)`
from `PortfolioSchema.pre('save')`. -/
def totalCostOf (invs : List Investment) : ℚ :=
  invs.foldl (fun total inv => total + inv.purchasePrice * inv.shares) 0

/-- `this.investments.reduce((total, inv) => { const currentPrice = inv.currentPrice || inv.purchasePrice; return total + currentPrice * inv.shares; }, 0)`
from `PortfolioSchema.pre('save')`. -/
def totalValueOf (invs : List Investment) : ℚ :=
  invs.foldl (fun total inv => total + (jsOr inv.currentPrice inv.purchasePrice) * inv.shares) 0

/-- The `PortfolioSchema.pre('save')` hook: recompute `totalCost` and
`totalValue` from the lots and refresh `updatedAt`; it runs on every
`portfolio.save()`. -/
def preSave (p : Portfolio) (nowMs : ℤ) : Portfolio :=
  { p with
    totalCost := totalCostOf p.investments
    totalValue := totalValueOf p.investments
    updatedAtMs := nowMs }

/-- Folding `fun t i => t + f i` from `init` is `init` plus the sum of the
mapped list (shape of every `reduce((total, x) => total + …, 0)` in the
source). -/
theorem foldl_add_eq_sum {α : Type} (f : α → ℚ) (l : List α) (init : ℚ) :
    l.foldl (fun t i => t + f i) init = init + (l.map f).sum := by
  induction l generalizing init with
  | nil => simp
  | cons a l ih => simp [List.foldl_cons, ih, add_assoc]

theorem totalCostOf_eq_sum (invs : List Investment) :
    totalCostOf invs = (invs.map (fun i => i.purchasePrice * i.shares)).sum := by
  simpa [totalCostOf] using foldl_add_eq_sum (fun i => i.purchasePrice * i.shares) invs 0

theorem totalValueOf_eq_sum (invs : List Investment) :
    totalValueOf invs = (invs.map (fun i => effectivePrice i * i.shares)).sum := by
  simpa [totalValueOf, effectivePrice] using
    foldl_add_eq_sum (fun i => jsOr i.currentPrice i.purchasePrice * i.shares) invs 0

/-- C1: the save-time aggregation sets `totalCost` to
`Σ purchasePrice·shares` and `totalValue` to `Σ effectivePrice·shares` over
the lots; on an empty lot collection both totals are `0`; and re-running the
hook on the unchanged lot sequence reproduces the same totals (idempotence).
-/
theorem C1_presave_aggregation (p : Portfolio) (t t' : ℤ) :
    (preSave p t).totalCost = (p.investments.map (fun i => i.purchasePrice * i.shares)).sum
    ∧ (preSave p t).totalValue = (p.investments.map (fun i => effectivePrice i * i.shares)).sum
    ∧ (preSave { p with investments := [] } t).totalCost = 0
    ∧ (preSave { p with investments := [] } t).totalValue = 0
    ∧ (preSave (preSave p t) t').totalCost = (preSave p t).totalCost
    ∧ (preSave (preSave p t) t').totalValue = (preSave p t).totalValue := by
  refine ⟨totalCostOf_eq_sum _, totalValueOf_eq_sum _, ?_, ?_, ?_, ?_⟩ <;>
    simp [preSave, totalCostOf, totalValueOf]

/-- A lot whose stored `currentPrice` is negative (the schema puts no lower
bound on `currentPrice`): JS `||` treats a negative number as truthy. -/
def negPriceLot : Investment :=
  { invId := 0, symbol := "NEG", name := none, shares := 1, purchasePrice := 10,
    purchaseDateMs := 0, purchaseYear := 2020, sector := none, notes := none,
    currentPrice := -5, lastUpdatedMs := 0 }

def negPricePortfolio : Portfolio :=
  { id := 0, userId := 0, name := "P", description := none,
    investments := [negPriceLot], totalValue := 0, totalCost := 0,
    updatedAtMs := 0, isDefault := false }

/-- C8 counterexample: the claim says a lot with negative `currentPrice` is
valued at `purchasePrice * shares` (here `10`); the save hook actually values
it at the negative `currentPrice` (`-5`), because `currentPrice ||
purchasePrice` only falls back on `0`, not on negative values. -/
theorem C8_counterexample :
    (preSave negPricePortfolio 0).totalValue = -5
    ∧ (preSave negPricePortfolio 0).totalValue
        ≠ negPriceLot.purchasePrice * negPriceLot.shares := by
  constructor <;>
    norm_num [preSave, totalValueOf, negPricePortfolio, negPriceLot, jsOr]

/-- C8 amended: the effective price equals `currentPrice` exactly when
`currentPrice` is nonzero — including negative values, which are used
directly — and equals `purchasePrice` only when `currentPrice = 0` (or, for
a raw JS document, absent/NaN); `totalValue` is the sum of that price times
shares. -/
theorem C8_effective_price_amended (p : Portfolio) (t : ℤ) :
    (preSave p t).totalValue
      = (p.investments.map
          (fun l => (if l.currentPrice = 0 then l.purchasePrice else l.currentPrice) * l.shares)).sum := by
  have h := totalValueOf_eq_sum p.investments
  simpa [preSave, effectivePrice, jsOr] using h

/-- One entry of the `/tax-loss-harvesting` response, from the `.map` in
`server/routes/tax.routes.js` (`investmentsWithLosses`). -/
structure HarvestCandidate where
  symbol : String
  name : String
  shares : ℚ
  purchasePrice : ℚ
  currentPrice : ℚ
  totalLoss : ℚ
  purchaseDateMs : ℤ
  sector : String
deriving Repr, DecidableEq

/-- The `.map` body of the `/tax-loss-harvesting` handler: `name: inv.name ||
inv.symbol`, `totalLoss: (inv.purchasePrice - inv.currentPrice) * inv.shares`,
`sector: inv.sector || 'Unknown'`. -/
def toCandidate (inv : Investment) : HarvestCandidate :=
  { symbol := inv.symbol
    name := jsOrStr inv.name inv.symbol
    shares := inv.shares
    purchasePrice := inv.purchasePrice
    currentPrice := inv.currentPrice
    totalLoss := (inv.purchasePrice - inv.currentPrice) * inv.shares
    purchaseDateMs := inv.purchaseDateMs
    sector := jsOrStr inv.sector "Unknown" }

/-- `portfolio.investments.filter(inv => inv.currentPrice < inv.purchasePrice).map(...)`
— the candidate list before sorting. -/
def lossCandidates (invs : List Investment) : List HarvestCandidate :=
  (invs.filter (fun inv => inv.currentPrice < inv.purchasePrice)).map toCandidate

/-- The comparison realised by `.sort((a, b) => b.totalLoss - a.totalLoss)`:
`a` may precede `b` iff `b.totalLoss ≤ a.totalLoss` (largest loss first). -/
def lossGE (a b : HarvestCandidate) : Prop := b.totalLoss ≤ a.totalLoss

instance : DecidableRel lossGE := fun a b =>
  inferInstanceAs (Decidable (b.totalLoss ≤ a.totalLoss))

instance : IsTotal HarvestCandidate lossGE :=
  ⟨fun a b => (le_total b.totalLoss a.totalLoss).imp id id⟩

instance : IsTrans HarvestCandidate lossGE :=
  ⟨fun _ _ _ h h' => le_trans h' h⟩

/-- The `/tax-loss-harvesting` selector: filter to lots with
`currentPrice < purchasePrice`, build the candidate records, and sort by
largest `totalLoss` first.  JavaScript `Array.prototype.sort` is stable
(ECMAScript 2019), which `List.insertionSort` with `lossGE` realises: ties
keep their original relative order. -/
def selectHarvestCandidates (invs : List Investment) : List HarvestCandidate :=
  (lossCandidates invs).insertionSort lossGE

/-- `orderedInsert` under a filter that pins the sort key: if the inserted
element has key `k`, it lands in front of the other key-`k` elements (every
element skipped over has a strictly larger key). -/
theorem filter_orderedInsert_same_key (k : ℚ) (a : HarvestCandidate)
    (ha : a.totalLoss = k) (m : List HarvestCandidate) :
    (m.orderedInsert lossGE a).filter (fun c => c.totalLoss = k)
      = a :: m.filter (fun c => c.totalLoss = k) := by
  induction m with
  | nil => simp [List.orderedInsert, ha]
  | cons b m ih =>
    by_cases hab : lossGE a b
    · simp [List.orderedInsert, hab, List.filter_cons, ha]
    · have hbk : ¬ (b.totalLoss = k) := by
        intro hb
        exact hab (by simp [lossGE, hb, ha])
      simp [List.orderedInsert, hab, List.filter_cons, hbk, ih]

/-- `orderedInsert` under a filter that excludes the inserted element changes
nothing. -/
theorem filter_orderedInsert_other_key (k : ℚ) (a : HarvestCandidate)
    (ha : ¬ (a.totalLoss = k)) (m : List HarvestCandidate) :
    (m.orderedInsert lossGE a).filter (fun c => c.totalLoss = k)
      = m.filter (fun c => c.totalLoss = k) := by
  induction m with
  | nil => simp [List.orderedInsert, ha]
  | cons b m ih =>
    by_cases hab : lossGE a b
    · simp [List.orderedInsert, hab, List.filter_cons, ha]
    · simp [List.orderedInsert, hab, List.filter_cons, ih]

/-- Stability of the harvest sort: for every loss value `k`, the candidates
with `totalLoss = k` appear in the sorted output in exactly their original
(insertion) order. -/
theorem filter_insertionSort_eq (k : ℚ) (m : List HarvestCandidate) :
    (m.insertionSort lossGE).filter (fun c => c.totalLoss = k)
      = m.filter (fun c => c.totalLoss = k) := by
  induction m with
  | nil => rfl
  | cons a m ih =>
    by_cases ha : a.totalLoss = k
    · rw [List.insertionSort, filter_orderedInsert_same_key k a ha, ih,
        List.filter_cons, if_pos (by simpa using ha)]
    · rw [List.insertionSort, filter_orderedInsert_other_key k a ha, ih,
        List.filter_cons, if_neg (by simpa using ha)]

/-- A lot with stored `currentPrice = 0` (schema default, no live quote) and
positive `purchasePrice`. -/
def zeroPriceLot : Investment :=
  { invId := 1, symbol := "ZERO", name := none, shares := 1, purchasePrice := 10,
    purchaseDateMs := 0, purchaseYear := 2020, sector := none, notes := none,
    currentPrice := 0, lastUpdatedMs := 0 }

/-- C2 counterexample: the claim selects lots with `effectivePrice <
purchasePrice`; for `zeroPriceLot` the effective price equals `purchasePrice`
(fallback on 0), so the claim excludes it — yet the handler, which compares
the raw `currentPrice`, selects it with `totalLoss = purchasePrice * shares`.
-/
theorem C2_counterexample :
    selectHarvestCandidates [zeroPriceLot] = [toCandidate zeroPriceLot]
    ∧ (toCandidate zeroPriceLot).totalLoss = 10
    ∧ ¬ (effectivePrice zeroPriceLot < zeroPriceLot.purchasePrice) := by
  refine ⟨?_, ?_, ?_⟩
  · rfl
  · norm_num [toCandidate, zeroPriceLot]
  · norm_num [effectivePrice, jsOr, zeroPriceLot]

/-- C2 amended: the selector returns exactly the lots whose *raw stored*
`currentPrice` is strictly below `purchasePrice` (no effective-price
fallback: a lot with `currentPrice = 0` is included with its full cost as
loss), each carrying `totalLoss = (purchasePrice − currentPrice)·shares`;
the output is a permutation of those candidates, is sorted descending by
`totalLoss`, and ties keep their original insertion order (stable sort). -/
theorem C2_harvest_amended (invs : List Investment) :
    (selectHarvestCandidates invs).Perm
        ((invs.filter (fun inv => inv.currentPrice < inv.purchasePrice)).map toCandidate)
    ∧ (∀ c ∈ selectHarvestCandidates invs,
        c.totalLoss = (c.purchasePrice - c.currentPrice) * c.shares
        ∧ c.currentPrice < c.purchasePrice)
    ∧ (selectHarvestCandidates invs).Sorted lossGE
    ∧ (∀ k : ℚ, (selectHarvestCandidates invs).filter (fun c => c.totalLoss = k)
        = (lossCandidates invs).filter (fun c => c.totalLoss = k)) := by
  refine ⟨List.perm_insertionSort lossGE _, ?_, ?_, ?_⟩
  · intro c hc
    have hc' : c ∈ lossCandidates invs :=
      (List.mem_insertionSort lossGE).1 hc
    rcases List.mem_map.1 hc' with ⟨inv, hinv, rfl⟩
    have hlt : inv.currentPrice < inv.purchasePrice :=
      by simpa using (List.mem_filter.1 hinv).2
    exact ⟨rfl, by simpa [toCandidate] using hlt⟩
  · exact List.sorted_insertionSort lossGE _
  · intro k
    exact filter_insertionSort_eq k _

/-- `1000 * 60 * 60 * 24` — the divisor in
`(currentDate - purchaseDate) / (1000 * 60 * 60 * 24)`. -/
def msPerDay : ℤ := 1000 * 60 * 60 * 24

/-- The holding period in days from `/calculate-gains`:
`(currentDate - purchaseDate) / (1000*60*60*24)`, an exact (fractional)
quotient of millisecond timestamps — the code never floors or truncates it.
-/
def holdingPeriodDays (purchaseMs nowMs : ℤ) : ℚ :=
  ((nowMs - purchaseMs : ℤ) : ℚ) / ((msPerDay : ℤ) : ℚ)

/-- `isLongTerm: holdingPeriod > 365` from `/calculate-gains`. -/
def isLongTermCode (purchaseMs nowMs : ℤ) : Bool :=
  decide ((365 : ℚ) < holdingPeriodDays purchaseMs nowMs)

/-- One entry of the `/calculate-gains` per-lot breakdown
(`investmentsData`). -/
structure GainsEntry where
  symbol : String
  name : String
  shares : ℚ
  purchasePrice : ℚ
  purchaseDateMs : ℤ
  currentPrice : ℚ
  unrealizedGain : ℚ
  isLongTerm : Bool
deriving Repr, DecidableEq

/-- The `.map` body of `/calculate-gains`: `unrealizedGain =
(inv.currentPrice - inv.purchasePrice) * inv.shares` on the raw stored
`currentPrice`, and the long-term flag from the fractional holding period
against the evaluation instant `nowMs`. -/
def toGainsEntry (nowMs : ℤ) (inv : Investment) : GainsEntry :=
  { symbol := inv.symbol
    name := jsOrStr inv.name inv.symbol
    shares := inv.shares
    purchasePrice := inv.purchasePrice
    purchaseDateMs := inv.purchaseDateMs
    currentPrice := inv.currentPrice
    unrealizedGain := (inv.currentPrice - inv.purchasePrice) * inv.shares
    isLongTerm := isLongTermCode inv.purchaseDateMs nowMs }

/-- The `/calculate-gains` response payload. -/
structure GainsResult where
  year : ℤ
  shortTermGains : ℚ
  longTermGains : ℚ
  totalGains : ℚ
  investments : List GainsEntry
deriving Repr, DecidableEq

/-- The `/calculate-gains` handler after the portfolio is loaded: filter to
lots with `getFullYear(purchaseDate) ≤ year`, early-return a zero-filled
result when none survive, otherwise map to the breakdown and sum the
unrealized gains into the short-term and long-term buckets. -/
def calculateGains (invs : List Investment) (year : ℤ) (nowMs : ℤ) : GainsResult :=
  let relevant := invs.filter (fun inv => inv.purchaseYear ≤ year)
  if relevant.length = 0 then
    { year := year, shortTermGains := 0, longTermGains := 0, totalGains := 0,
      investments := [] }
  else
    let data := relevant.map (toGainsEntry nowMs)
    let short := ((data.filter (fun e => !e.isLongTerm)).foldl
      (fun t e => t + e.unrealizedGain) 0)
    let long := ((data.filter (fun e => e.isLongTerm)).foldl
      (fun t e => t + e.unrealizedGain) 0)
    { year := year, shortTermGains := short, longTermGains := long,
      totalGains := short + long, investments := data }

/-- An evaluation instant 365 days and 12 hours after the epoch. -/
def halfDayPastYearMs : ℤ := 365 * msPerDay + 12 * 60 * 60 * 1000

/-- C3 counterexample: for a lot purchased at time `0` and evaluated 365.5
days later, the whole-day holding period is exactly `365`, which the claim
(`isLongTerm ⟺ whole days > 365`) classifies short-term — but the code keeps
the fractional value `365.5 > 365` and classifies the lot long-term. -/
theorem C3_counterexample :
    isLongTermCode 0 halfDayPastYearMs = true
    ∧ ⌊holdingPeriodDays 0 halfDayPastYearMs⌋ = 365 := by
  constructor
  · have : ((365 : ℚ)) < holdingPeriodDays 0 halfDayPastYearMs := by
      norm_num [holdingPeriodDays, halfDayPastYearMs, msPerDay]
    simpa [isLongTermCode] using this
  · have : holdingPeriodDays 0 halfDayPastYearMs = 731 / 2 := by
      norm_num [holdingPeriodDays, halfDayPastYearMs, msPerDay]
    rw [this]
    norm_num [Int.floor_eq_iff]

/-- C3 amended: the holding period is the exact fractional day count
`(nowMs − purchaseDateMs) / 86 400 000` — never floored — and every
breakdown entry of `/calculate-gains` is flagged long-term iff that
fractional count strictly exceeds `365`; a lot held exactly 365 whole days
is still classified short-term. -/
theorem C3_holding_period_amended (invs : List Investment) (year nowMs : ℤ) :
    ∀ e ∈ (calculateGains invs year nowMs).investments,
      (e.isLongTerm = true
          ↔ (365 : ℚ) < ((nowMs - e.purchaseDateMs : ℤ) : ℚ) / ((86400000 : ℤ) : ℚ))
      ∧ (nowMs - e.purchaseDateMs = 365 * msPerDay → e.isLongTerm = false) := by
  intro e he
  have hmem : ∃ inv ∈ invs.filter (fun inv => inv.purchaseYear ≤ year),
      toGainsEntry nowMs inv = e := by
    unfold calculateGains at he
    by_cases h : (invs.filter (fun inv => inv.purchaseYear ≤ year)).length = 0
    · simp [h] at he
    · simp only [h, if_neg, if_false] at he
      simpa using (List.mem_map.1 he)
  rcases hmem with ⟨inv, _, rfl⟩
  constructor
  · simp [toGainsEntry, isLongTermCode, holdingPeriodDays, msPerDay]
  · intro hEq
    have hEq' : nowMs - inv.purchaseDateMs = 365 * msPerDay := by
      simpa [toGainsEntry] using hEq
    have h365 : holdingPeriodDays inv.purchaseDateMs nowMs = 365 := by
      unfold holdingPeriodDays
      rw [hEq']
      norm_num [msPerDay]
    simp [toGainsEntry, isLongTermCode, h365]


/-- The lot pushed by `POST /:id/investment`
(`server/routes/portfolio.routes.js`): `symbol.toUpperCase()`, `name ||
symbol.toUpperCase()`, `purchaseDate || new Date()`; `currentPrice` is the
quote's `regularMarketPrice` on success and falls back to `purchasePrice`
when the quote call throws (`quote = none`). -/
def pushedInvestment (newInvId : ℕ) (symbol : String) (name : Option String)
    (shares purchasePrice : ℚ) (purchaseDateMs : Option ℤ) (purchaseYear : ℤ)
    (sector notes : Option String) (quote : Option ℚ) (nowMs : ℤ) : Investment :=
  { invId := newInvId
    symbol := symbol.toUpper
    name := some (jsOrStr name symbol.toUpper)
    shares := shares
    purchasePrice := purchasePrice
    purchaseDateMs := purchaseDateMs.getD nowMs
    purchaseYear := purchaseYear
    sector := sector
    notes := notes
    currentPrice := match quote with
      | some q => q
      | none => purchasePrice
    lastUpdatedMs := nowMs }

/-- The `POST /:id/investment` handler after the portfolio is loaded: push
the new lot and save (running the `preSave` aggregation). -/
def addInvestment (p : Portfolio) (newInvId : ℕ) (symbol : String)
    (name : Option String) (shares purchasePrice : ℚ)
    (purchaseDateMs : Option ℤ) (purchaseYear : ℤ)
    (sector notes : Option String) (quote : Option ℚ) (nowMs : ℤ) : Portfolio :=
  preSave
    { p with investments := p.investments ++
        [pushedInvestment newInvId symbol name shares purchasePrice
          purchaseDateMs purchaseYear sector notes quote nowMs] } nowMs

/-- C4 counterexample: a lot whose *stored* `currentPrice` is `0` (the schema
default) and `purchasePrice = 10`: the claim says the calculator falls back
to `purchasePrice` and reports an unrealized gain of `0`; the handler uses
the stored `currentPrice` directly and reports `(0 − 10)·1 = −10`. -/
theorem C4_counterexample :
    ((calculateGains [zeroPriceLot] 2020 0).investments.map
        (fun e => e.unrealizedGain)) = [-10]
    ∧ (calculateGains [zeroPriceLot] 2020 0).totalGains = -10 := by
  constructor
  · norm_num [calculateGains, zeroPriceLot, toGainsEntry]
  · norm_num [calculateGains, zeroPriceLot, toGainsEntry, isLongTermCode,
      holdingPeriodDays, msPerDay]

/-- C4 amended: `/calculate-gains` computes each breakdown entry's
`unrealizedGain` as `(currentPrice − purchasePrice)·shares` on the *stored*
`currentPrice` with no computation-time fallback (a stored `0` is used
directly, contributing `−purchasePrice·shares`); the purchase-price fallback
happens at lot *creation*: `POST /:id/investment` initialises `currentPrice`
to `purchasePrice` and keeps it when the quote fails, so a lot created with
no live quote carries `currentPrice = purchasePrice` and contributes an
unrealized gain of `0`. -/
theorem C4_unrealized_gain_amended (invs : List Investment) (year nowMs : ℤ)
    (newInvId : ℕ) (symbol : String) (name : Option String)
    (shares purchasePrice : ℚ) (purchaseDateMs : Option ℤ) (purchaseYear : ℤ)
    (sector notes : Option String) :
    (∀ e ∈ (calculateGains invs year nowMs).investments,
        e.unrealizedGain = (e.currentPrice - e.purchasePrice) * e.shares)
    ∧ (pushedInvestment newInvId symbol name shares purchasePrice
        purchaseDateMs purchaseYear sector notes none nowMs).currentPrice
        = purchasePrice
    ∧ ((pushedInvestment newInvId symbol name shares purchasePrice
          purchaseDateMs purchaseYear sector notes none nowMs).currentPrice
        - (pushedInvestment newInvId symbol name shares purchasePrice
            purchaseDateMs purchaseYear sector notes none nowMs).purchasePrice)
        * (pushedInvestment newInvId symbol name shares purchasePrice
            purchaseDateMs purchaseYear sector notes none nowMs).shares = 0 := by
  refine ⟨?_, rfl, by simp [pushedInvestment]⟩
  intro e he
  unfold calculateGains at he
  by_cases h : (invs.filter (fun inv => inv.purchaseYear ≤ year)).length = 0
  · simp [h] at he
  · simp only [h, if_neg, if_false] at he
    rcases (by simpa using he :
        ∃ a, (a ∈ invs ∧ a.purchaseYear ≤ year) ∧ toGainsEntry nowMs a = e)
      with ⟨inv, _, rfl⟩
    simp [toGainsEntry]

/-- C5: `/calculate-gains` keeps exactly the lots whose purchase year is at
most the target year: the breakdown is the image of that filtered list (lots
purchased later appear in no breakdown entry and, since the buckets are
summed over the breakdown, in no bucket); when no lot survives the filter
the handler returns the zero-filled result with an empty breakdown. -/
theorem C5_year_filter (invs : List Investment) (year nowMs : ℤ) :
    (calculateGains invs year nowMs).investments
        = (invs.filter (fun inv => inv.purchaseYear ≤ year)).map (toGainsEntry nowMs)
    ∧ (∀ e ∈ (calculateGains invs year nowMs).investments,
        ∃ inv ∈ invs, inv.purchaseYear ≤ year ∧ e = toGainsEntry nowMs inv)
    ∧ (calculateGains invs year nowMs).shortTermGains
        = ((((invs.filter (fun inv => inv.purchaseYear ≤ year)).map
            (toGainsEntry nowMs)).filter (fun e => !e.isLongTerm)).map
              (fun e => e.unrealizedGain)).sum
    ∧ (calculateGains invs year nowMs).longTermGains
        = ((((invs.filter (fun inv => inv.purchaseYear ≤ year)).map
            (toGainsEntry nowMs)).filter (fun e => e.isLongTerm)).map
              (fun e => e.unrealizedGain)).sum
    ∧ (invs.filter (fun inv => inv.purchaseYear ≤ year) = [] →
        calculateGains invs year nowMs
          = { year := year, shortTermGains := 0, longTermGains := 0,
              totalGains := 0, investments := [] }) := by
  have hfold : ∀ (l : List GainsEntry),
      l.foldl (fun t e => t + e.unrealizedGain) 0
        = (l.map (fun e => e.unrealizedGain)).sum := by
    intro l
    simpa using foldl_add_eq_sum (fun e : GainsEntry => e.unrealizedGain) l 0
  refine ⟨?_, ?_, ?_, ?_, ?_⟩
  · unfold calculateGains
    by_cases h : (invs.filter (fun inv => inv.purchaseYear ≤ year)).length = 0
    · simp only [h, if_pos]
      rw [List.length_eq_zero.1 h]
      simp
    · simp [h]
  · intro e he
    unfold calculateGains at he
    by_cases h : (invs.filter (fun inv => inv.purchaseYear ≤ year)).length = 0
    · simp [h] at he
    · simp only [h, if_neg, if_false] at he
      rcases (by simpa using he :
          ∃ a, (a ∈ invs ∧ a.purchaseYear ≤ year) ∧ toGainsEntry nowMs a = e)
        with ⟨inv, ⟨hi, hy⟩, rfl⟩
      exact ⟨inv, hi, hy, rfl⟩
  · unfold calculateGains
    by_cases h : (invs.filter (fun inv => inv.purchaseYear ≤ year)).length = 0
    · simp only [h, if_pos]
      rw [List.length_eq_zero.1 h]
      simp
    · simp [h, hfold]
  · unfold calculateGains
    by_cases h : (invs.filter (fun inv => inv.purchaseYear ≤ year)).length = 0
    · simp only [h, if_pos]
      rw [List.length_eq_zero.1 h]
      simp
    · simp [h, hfold]
  · intro h
    unfold calculateGains
    simp [h]

/-- `[...new Set(list)]`: deduplicate, keeping the first occurrence of each
element in insertion order. -/
def jsSetDedup : List String → List String
  | [] => []
  | s :: rest => s :: (jsSetDedup rest).filter (fun t => t ≠ s)

theorem mem_jsSetDedup (s : String) : ∀ (l : List String), s ∈ jsSetDedup l ↔ s ∈ l := by
  intro l
  induction l with
  | nil => simp [jsSetDedup]
  | cons a l ih =>
    by_cases h : s = a
    · subst h
      simp [jsSetDedup]
    · simp [jsSetDedup, h, List.mem_filter, ih]

theorem nodup_jsSetDedup : ∀ (l : List String), (jsSetDedup l).Nodup := by
  intro l
  induction l with
  | nil => simp [jsSetDedup]
  | cons a l ih =>
    refine List.nodup_cons.2 ⟨?_, List.Nodup.filter _ ih⟩
    intro hmem
    have := (List.mem_filter.1 hmem).2
    simp at this

/-- The per-lot step of `POST /:id/refresh`: `if (quotes[investment.symbol])
{ investment.currentPrice = quotes[...]; investment.lastUpdated = new Date() }`
— the quote is applied only when present and truthy (nonzero). -/
def refreshInvestment (quotes : String → Option ℚ) (nowMs : ℤ)
    (inv : Investment) : Investment :=
  match quotes inv.symbol with
  | some q =>
      if q = 0 then inv
      else { inv with currentPrice := q, lastUpdatedMs := nowMs }
  | none => inv

/-- The `POST /:id/refresh` handler after the portfolio is loaded
(`server/routes/portfolio.routes.js`).  An empty portfolio returns
unchanged without saving.  Otherwise the distinct symbols are collected
(`[...new Set(...)]`), each is quoted once — a per-symbol quote failure
(`quoteSource s = none`) is caught and simply leaves `quotes` without an
entry for `s` — every lot whose symbol has a truthy quote gets the new price
and timestamp, and the portfolio is saved, re-running the `preSave`
aggregation. -/
def refresh (p : Portfolio) (quoteSource : String → Option ℚ) (nowMs : ℤ) :
    Portfolio :=
  if p.investments.length = 0 then p
  else
    let symbols := jsSetDedup (p.investments.map (fun i => i.symbol))
    let quotes : String → Option ℚ := fun s =>
      if s ∈ symbols then quoteSource s else none
    preSave
      { p with investments := p.investments.map (refreshInvestment quotes nowMs) }
      nowMs

/-- `Forall₂` between a list and its image under `f` is a pointwise property.
-/
theorem forall₂_map_self {α β : Type} (R : α → β → Prop) (f : α → β) :
    ∀ (l : List α), (∀ x ∈ l, R x (f x)) → List.Forall₂ R l (l.map f) := by
  intro l
  induction l with
  | nil => intro _; simp
  | cons a l ih =>
    intro h
    simp only [List.map_cons]
    exact List.Forall₂.cons (h a (List.mem_cons_self a l))
      (ih (fun x hx => h x (List.mem_cons_of_mem a hx)))

/-- The property C6 asserts of one refresh run: the deduplicated symbol list
is duplicate-free and covers exactly the lots' symbols; lot-by-lot, a failed
quote leaves the lot untouched (price and timestamp) while a successful
quote rewrites the price and the timestamp; and the aggregate totals of the
result are recomputed from the refreshed lots. -/
def RefreshClaim (p : Portfolio) (quoteSource : String → Option ℚ) (nowMs : ℤ) : Prop :=
  (jsSetDedup (p.investments.map (fun i => i.symbol))).Nodup
  ∧ (∀ s, s ∈ jsSetDedup (p.investments.map (fun i => i.symbol))
      ↔ s ∈ p.investments.map (fun i => i.symbol))
  ∧ List.Forall₂
      (fun inv inv' =>
        (quoteSource inv.symbol = none → inv' = inv)
        ∧ (∀ q, quoteSource inv.symbol = some q →
            inv' = { inv with currentPrice := q, lastUpdatedMs := nowMs }))
      p.investments (refresh p quoteSource nowMs).investments
  ∧ (refresh p quoteSource nowMs).totalCost
      = ((refresh p quoteSource nowMs).investments.map
          (fun i => i.purchasePrice * i.shares)).sum
  ∧ (refresh p quoteSource nowMs).totalValue
      = ((refresh p quoteSource nowMs).investments.map
          (fun i => effectivePrice i * i.shares)).sum

/-- C6: for a loadable portfolio with at least one lot and a quote source
honouring the §6 interface (successful quotes are positive), the refresh
operation is per-symbol fault-isolated: lots of failed symbols keep their
prior `currentPrice` and `lastUpdated`, lots of quoted symbols all receive
the new price and timestamp, the symbol list is deduplicated, and the
aggregate totals are recomputed from the refreshed lots.  The operation is
a total function of the loaded portfolio — an individual quote failure can
never fail it as a whole. -/
theorem C6_refresh (p : Portfolio) (quoteSource : String → Option ℚ) (nowMs : ℤ)
    (hpos : ∀ s q, quoteSource s = some q → 0 < q)
    (hne : p.investments ≠ []) :
    RefreshClaim p quoteSource nowMs := by
  have hlen : ¬ (p.investments.length = 0) := by
    simpa [List.length_eq_zero] using hne
  refine ⟨nodup_jsSetDedup _, fun s => mem_jsSetDedup s _, ?_, ?_, ?_⟩
  · have hinvs : (refresh p quoteSource nowMs).investments
        = p.investments.map
            (refreshInvestment
              (fun s => if s ∈ jsSetDedup (p.investments.map (fun i => i.symbol))
                then quoteSource s else none) nowMs) := by
      simp [refresh, hlen, preSave]
    rw [hinvs]
    apply forall₂_map_self
    intro inv hinv
    have hsym : inv.symbol ∈ jsSetDedup (p.investments.map (fun i => i.symbol)) := by
      rw [mem_jsSetDedup]
      exact List.mem_map.2 ⟨inv, hinv, rfl⟩
    constructor
    · intro hnone
      simp [refreshInvestment, hsym, hnone]
    · intro q hq
      have hq0 : ¬ (q = 0) := (hpos _ _ hq).ne'
      simp [refreshInvestment, hsym, hq, hq0]
  · simp only [refresh, hlen, if_neg, if_false, preSave]
    exact totalCostOf_eq_sum _
  · simp only [refresh, hlen, if_neg, if_false, preSave]
    exact totalValueOf_eq_sum _

/-- A lot in symbol `"AAPL"` and one in `"FAIL"`, for exercising refresh. -/
def aaplLot : Investment :=
  { invId := 2, symbol := "AAPL", name := none, shares := 2, purchasePrice := 100,
    purchaseDateMs := 0, purchaseYear := 2020, sector := none, notes := none,
    currentPrice := 110, lastUpdatedMs := 0 }

def failLot : Investment :=
  { invId := 3, symbol := "FAIL", name := none, shares := 3, purchasePrice := 50,
    purchaseDateMs := 0, purchaseYear := 2021, sector := none, notes := none,
    currentPrice := 48, lastUpdatedMs := 0 }

def refreshDemoPortfolio : Portfolio :=
  { id := 1, userId := 1, name := "demo", description := none,
    investments := [aaplLot, failLot], totalValue := 0, totalCost := 0,
    updatedAtMs := 0, isDefault := false }

/-- A quote source that succeeds (price `120`) on `"AAPL"` and throws on
everything else. -/
def demoQuoteSource : String → Option ℚ :=
  fun s => if s = "AAPL" then some 120 else none

theorem C6_refresh_witness : RefreshClaim refreshDemoPortfolio demoQuoteSource 99 := by
  refine C6_refresh refreshDemoPortfolio demoQuoteSource 99 ?_ ?_
  · intro s q hq
    by_cases hs : s = "AAPL"
    · rw [demoQuoteSource, if_pos hs] at hq
      have hq120 : q = 120 := (Option.some.inj hq).symm
      rw [hq120]
      norm_num
    · rw [demoQuoteSource, if_neg hs] at hq
      exact Option.noConfusion hq
  · intro h
    simp [refreshDemoPortfolio] at h

/-- `Portfolio.findOne({ user: req.user.id, isDefault: true })`: the first
portfolio of the user that is flagged default. -/
def findDefaultOf (db : List Portfolio) (uid : ℕ) : Option Portfolio :=
  db.find? (fun q => decide (q.userId = uid ∧ q.isDefault = true))

/-- `Portfolio.findOne({ _id: req.params.id, user: req.user.id })`. -/
def findPortfolioOf (db : List Portfolio) (uid pid : ℕ) : Option Portfolio :=
  db.find? (fun q => decide (q.id = pid ∧ q.userId = uid))

/-- The `POST /` create-portfolio handler
(`server/routes/portfolio.routes.js`): when the request asks for a default
portfolio, the user's existing default (if any) is found, cleared and saved
(`existingDefault.save()` runs the `preSave` hook); then the new portfolio is
created with `isDefault: isDefault || false` and saved. -/
def createPortfolio (db : List Portfolio) (uid newId : ℕ) (nm : String)
    (descr : Option String) (isDef : Bool) (nowMs : ℤ) : List Portfolio :=
  let db' :=
    if isDef then
      match findDefaultOf db uid with
      | some ex =>
          db.map (fun q =>
            if q.id = ex.id then preSave { q with isDefault := false } nowMs else q)
      | none => db
    else db
  db' ++ [preSave
    { id := newId, userId := uid, name := nm, description := descr,
      investments := [], totalValue := 0, totalCost := 0, updatedAtMs := nowMs,
      isDefault := isDef } nowMs]

/-- The saved target document of `PUT /:id`: `portfolio.name = name;
portfolio.description = description; portfolio.isDefault = isDefault ||
portfolio.isDefault; await portfolio.save()`. -/
def updatedPortfolioDoc (p : Portfolio) (nm : String) (descr : Option String)
    (isDef : Bool) (nowMs : ℤ) : Portfolio :=
  preSave
    { p with
      name := nm
      description := descr
      isDefault := isDef || p.isDefault } nowMs

/-- The `PUT /:id` update-portfolio handler: not-found leaves the collection
unchanged; when the request sets default on a portfolio that is not yet
default, `updateMany` clears the flag on every other default portfolio of
the same user (bypassing save hooks); the target is then saved with
`isDefault = isDefault || portfolio.isDefault`. -/
def updatePortfolio (db : List Portfolio) (uid pid : ℕ) (nm : String)
    (descr : Option String) (isDef : Bool) (nowMs : ℤ) : List Portfolio :=
  match findPortfolioOf db uid pid with
  | none => db
  | some p =>
    let db' :=
      if isDef ∧ ¬ p.isDefault then
        db.map (fun q =>
          if q.userId = uid ∧ q.isDefault = true ∧ q.id ≠ p.id
          then { q with isDefault := false } else q)
      else db
    let p' := updatedPortfolioDoc p nm descr isDef nowMs
    db'.map (fun q => if q.id = p.id then p' else q)

/-- At most one portfolio of user `u` carries the default flag, portfolios
being identified by their Mongo `_id`. -/
def defaultsAtMostOne (db : List Portfolio) (u : ℕ) : Prop :=
  ∀ x ∈ db, ∀ y ∈ db, x.userId = u → x.isDefault = true →
    y.userId = u → y.isDefault = true → x.id = y.id


theorem findDefaultOf_spec {db : List Portfolio} {uid : ℕ} {ex : Portfolio}
    (h : findDefaultOf db uid = some ex) :
    ex ∈ db ∧ ex.userId = uid ∧ ex.isDefault = true := by
  unfold findDefaultOf at h
  have h2 := List.find?_some h
  exact ⟨List.mem_of_find?_eq_some h, of_decide_eq_true h2⟩

theorem findDefaultOf_none {db : List Portfolio} {uid : ℕ}
    (h : findDefaultOf db uid = none) :
    ∀ q ∈ db, ¬ (q.userId = uid ∧ q.isDefault = true) := by
  unfold findDefaultOf at h
  intro q hq
  have := List.find?_eq_none.1 h q hq
  simpa using this

theorem findDefaultOf_isSome {db : List Portfolio} {uid : ℕ} {q : Portfolio}
    (hq : q ∈ db) (hu : q.userId = uid) (hd : q.isDefault = true) :
    ∃ ex, findDefaultOf db uid = some ex := by
  have : (db.find? (fun q => decide (q.userId = uid ∧ q.isDefault = true))).isSome := by
    rw [List.find?_isSome]
    exact ⟨q, hq, by simp [hu, hd]⟩
  rcases Option.isSome_iff_exists.1 this with ⟨ex, hex⟩
  exact ⟨ex, hex⟩

theorem findPortfolioOf_spec {db : List Portfolio} {uid pid : ℕ} {p : Portfolio}
    (h : findPortfolioOf db uid pid = some p) :
    p ∈ db ∧ p.id = pid ∧ p.userId = uid := by
  unfold findPortfolioOf at h
  have h2 := List.find?_some h
  exact ⟨List.mem_of_find?_eq_some h, of_decide_eq_true h2⟩

/-- The document appended by `createPortfolio`. -/
def newPortfolioDoc (uid newId : ℕ) (nm : String) (descr : Option String)
    (isDef : Bool) (nowMs : ℤ) : Portfolio :=
  preSave
    { id := newId, userId := uid, name := nm, description := descr,
      investments := [], totalValue := 0, totalCost := 0, updatedAtMs := nowMs,
      isDefault := isDef } nowMs

theorem newPortfolioDoc_fields (uid newId : ℕ) (nm : String)
    (descr : Option String) (isDef : Bool) (nowMs : ℤ) :
    (newPortfolioDoc uid newId nm descr isDef nowMs).id = newId
    ∧ (newPortfolioDoc uid newId nm descr isDef nowMs).userId = uid
    ∧ (newPortfolioDoc uid newId nm descr isDef nowMs).isDefault = isDef := by
  refine ⟨rfl, rfl, rfl⟩

/-- Where each element of `createPortfolio`'s result comes from: it is the
appended new document, or the image of a stored document — unchanged, or
with its default flag cleared; an unchanged document cannot be the user's
found default. -/
theorem createPortfolio_mem (db : List Portfolio) (uid newId : ℕ) (nm : String)
    (descr : Option String) (isDef : Bool) (nowMs : ℤ) :
    ∀ z ∈ createPortfolio db uid newId nm descr isDef nowMs,
      z = newPortfolioDoc uid newId nm descr isDef nowMs
      ∨ ∃ r ∈ db, z.id = r.id ∧ z.userId = r.userId
          ∧ (z.isDefault = false
             ∨ (z = r ∧ (isDef = true →
                  ∀ ex, findDefaultOf db uid = some ex → r.id ≠ ex.id))) := by
  intro z hz
  unfold createPortfolio at hz
  rw [List.mem_append] at hz
  rcases hz with hz | hz
  · right
    by_cases hd : isDef = true
    · rw [if_pos hd] at hz
      cases hfind : findDefaultOf db uid with
      | none =>
        rw [hfind] at hz
        exact ⟨z, hz, rfl, rfl, Or.inr ⟨rfl, fun _ ex hex =>
          Option.noConfusion hex⟩⟩
      | some ex =>
        rw [hfind] at hz
        rcases List.mem_map.1 hz with ⟨r, hr, himg⟩
        by_cases hid : r.id = ex.id
        · rw [if_pos hid] at himg
          refine ⟨r, hr, ?_, ?_, Or.inl ?_⟩ <;> rw [← himg] <;> simp [preSave]
        · rw [if_neg hid] at himg
          exact ⟨r, hr, by rw [← himg], by rw [← himg],
            Or.inr ⟨himg.symm, fun _ ex' hex' => by
              rw [← Option.some.inj hex']
              exact hid⟩⟩
    · rw [if_neg hd] at hz
      exact ⟨z, hz, rfl, rfl, Or.inr ⟨rfl, fun h => absurd h hd⟩⟩
  · left
    simpa [newPortfolioDoc] using List.mem_singleton.1 hz

theorem updatedPortfolioDoc_fields (p : Portfolio) (nm : String)
    (descr : Option String) (isDef : Bool) (nowMs : ℤ) :
    (updatedPortfolioDoc p nm descr isDef nowMs).id = p.id
    ∧ (updatedPortfolioDoc p nm descr isDef nowMs).userId = p.userId
    ∧ (updatedPortfolioDoc p nm descr isDef nowMs).isDefault
        = (isDef || p.isDefault) := by
  refine ⟨rfl, rfl, rfl⟩

/-- Where each element of `updatePortfolio`'s result comes from when the
target is found: it is the saved target (carrying the target's id), or the
image of a stored document with a different id — cleared, or untouched; an
untouched document cannot be another default of the same user while the
`updateMany` branch ran. -/
theorem updatePortfolio_mem (db : List Portfolio) (uid pid : ℕ) (nm : String)
    (descr : Option String) (isDef : Bool) (nowMs : ℤ) (p : Portfolio)
    (hp : findPortfolioOf db uid pid = some p) :
    ∀ z ∈ updatePortfolio db uid pid nm descr isDef nowMs,
      (z = updatedPortfolioDoc p nm descr isDef nowMs ∧ z.id = pid)
      ∨ ∃ r ∈ db, z.id = r.id ∧ z.userId = r.userId ∧ z.id ≠ pid
          ∧ (z.isDefault = false
             ∨ (z = r ∧ ((isDef = true ∧ p.isDefault = false) →
                  ¬ (r.userId = uid ∧ r.isDefault = true)))) := by
  have hpspec := findPortfolioOf_spec hp
  have heq : updatePortfolio db uid pid nm descr isDef nowMs
      = ((if isDef ∧ ¬ p.isDefault then
            db.map (fun q =>
              if q.userId = uid ∧ q.isDefault = true ∧ q.id ≠ p.id
              then { q with isDefault := false } else q)
          else db).map
          (fun q => if q.id = p.id
            then updatedPortfolioDoc p nm descr isDef nowMs else q)) := by
    unfold updatePortfolio
    rw [hp]
  intro z hz
  rw [heq] at hz
  by_cases hcond : isDef ∧ ¬ p.isDefault
  · rw [if_pos hcond] at hz
    rw [List.map_map] at hz
    rcases List.mem_map.1 hz with ⟨r, hr, himg⟩
    simp only [Function.comp] at himg
    by_cases hcl : r.userId = uid ∧ r.isDefault = true ∧ r.id ≠ p.id
    · rw [if_pos hcl] at himg
      have hidr : ¬ (({ r with isDefault := false } : Portfolio).id = p.id) :=
        hcl.2.2
      rw [if_neg hidr] at himg
      right
      refine ⟨r, hr, by rw [← himg], by rw [← himg], ?_, Or.inl (by rw [← himg])⟩
      rw [← himg]
      simpa [hpspec.2.1] using hcl.2.2
    · rw [if_neg hcl] at himg
      by_cases hid : r.id = p.id
      · rw [if_pos hid] at himg
        left
        refine ⟨himg.symm, ?_⟩
        rw [← himg, (updatedPortfolioDoc_fields p nm descr isDef nowMs).1,
          hpspec.2.1]
      · rw [if_neg hid] at himg
        right
        refine ⟨r, hr, by rw [← himg], by rw [← himg], ?_,
          Or.inr ⟨himg.symm, ?_⟩⟩
        · rw [← himg]
          simpa [hpspec.2.1] using hid
        · intro _ hru
          exact hcl ⟨hru.1, hru.2, hid⟩
  · rw [if_neg hcond] at hz
    rcases List.mem_map.1 hz with ⟨r, hr, himg⟩
    by_cases hid : r.id = p.id
    · rw [if_pos hid] at himg
      left
      refine ⟨himg.symm, ?_⟩
      rw [← himg, (updatedPortfolioDoc_fields p nm descr isDef nowMs).1,
        hpspec.2.1]
    · rw [if_neg hid] at himg
      right
      refine ⟨r, hr, by rw [← himg], by rw [← himg], ?_,
        Or.inr ⟨himg.symm, fun hc => absurd ⟨hc.1, by simp [hc.2]⟩ hcond⟩⟩
      rw [← himg]
      simpa [hpspec.2.1] using hid

theorem newDoc_conflict (db : List Portfolio) (uid newId : ℕ) (nm : String)
    (descr : Option String) (isDef : Bool) (nowMs : ℤ)
    (hpre : ∀ u, defaultsAtMostOne db u) (u : ℕ) (x y : Portfolio)
    (hxN : x = newPortfolioDoc uid newId nm descr isDef nowMs)
    (hxu : x.userId = u) (hxd : x.isDefault = true)
    (ry : Portfolio) (hry : ry ∈ db)
    (hyuser : y.userId = ry.userId)
    (hycase : y.isDefault = false
      ∨ (y = ry ∧ (isDef = true →
          ∀ ex, findDefaultOf db uid = some ex → ry.id ≠ ex.id)))
    (hyu : y.userId = u) (hyd : y.isDefault = true) : False := by
  have hx_user : x.userId = uid := by rw [hxN]; rfl
  have huuid : u = uid := by rw [← hxu, hx_user]
  have hisDef : isDef = true := by
    have hxe : x.isDefault = isDef := by rw [hxN]; rfl
    rw [← hxe]
    exact hxd
  rcases hycase with hyf | ⟨hyr, himp⟩
  · rw [hyf] at hyd
    exact Bool.noConfusion hyd
  · have hry_u : ry.userId = uid := by rw [← hyuser, hyu, huuid]
    have hry_d : ry.isDefault = true := by rw [← hyr]; exact hyd
    obtain ⟨ex, hex⟩ := findDefaultOf_isSome hry hry_u hry_d
    have hexspec := findDefaultOf_spec hex
    have hideq : ry.id = ex.id :=
      hpre uid ry hry ex hexspec.1 hry_u hry_d hexspec.2.1 hexspec.2.2
    exact himp hisDef ex hex hideq

theorem createPortfolio_preserves (db : List Portfolio) (uid newId : ℕ)
    (nm : String) (descr : Option String) (isDef : Bool) (nowMs : ℤ)
    (hpre : ∀ u, defaultsAtMostOne db u) (u : ℕ) :
    defaultsAtMostOne (createPortfolio db uid newId nm descr isDef nowMs) u := by
  intro x hx y hy hxu hxd hyu hyd
  rcases createPortfolio_mem db uid newId nm descr isDef nowMs x hx with
    hxN | ⟨rx, hrx, hxid, hxuser, hxcase⟩
  · rcases createPortfolio_mem db uid newId nm descr isDef nowMs y hy with
      hyN | ⟨ry, hry, hyid, hyuser, hycase⟩
    · rw [hxN, hyN]
    · exact absurd (newDoc_conflict db uid newId nm descr isDef nowMs hpre u
        x y hxN hxu hxd ry hry hyuser hycase hyu hyd) (by simp)
  · rcases createPortfolio_mem db uid newId nm descr isDef nowMs y hy with
      hyN | ⟨ry, hry, hyid, hyuser, hycase⟩
    · exact absurd (newDoc_conflict db uid newId nm descr isDef nowMs hpre u
        y x hyN hyu hyd rx hrx hxuser hxcase hxu hxd) (by simp)
    · rcases hxcase with hxf | ⟨hxr, -⟩
      · rw [hxf] at hxd
        exact Bool.noConfusion hxd
      · rcases hycase with hyf | ⟨hyr, -⟩
        · rw [hyf] at hyd
          exact Bool.noConfusion hyd
        · have h1 : rx.id = ry.id := by
            refine hpre u rx hrx ry hry ?_ ?_ ?_ ?_
            · rw [← hxuser, hxu]
            · rw [← hxr]; exact hxd
            · rw [← hyuser, hyu]
            · rw [← hyr]; exact hyd
          rw [hxid, hyid, h1]

theorem updatedDoc_conflict (db : List Portfolio) (uid pid : ℕ) (nm : String)
    (descr : Option String) (isDef : Bool) (nowMs : ℤ) (p : Portfolio)
    (hp : findPortfolioOf db uid pid = some p)
    (hpre : ∀ u, defaultsAtMostOne db u) (u : ℕ) (x y : Portfolio)
    (hxP : x = updatedPortfolioDoc p nm descr isDef nowMs)
    (hxu : x.userId = u) (hxd : x.isDefault = true)
    (ry : Portfolio) (hry : ry ∈ db) (hyid : y.id = ry.id)
    (hyuser : y.userId = ry.userId) (hyne : y.id ≠ pid)
    (hycase : y.isDefault = false
      ∨ (y = ry ∧ ((isDef = true ∧ p.isDefault = false) →
          ¬ (ry.userId = uid ∧ ry.isDefault = true))))
    (hyu : y.userId = u) (hyd : y.isDefault = true) : False := by
  have hpspec := findPortfolioOf_spec hp
  have hx_user : x.userId = p.userId := by rw [hxP]; rfl
  have huuid : u = uid := by rw [← hxu, hx_user, hpspec.2.2]
  have hxdef : (isDef || p.isDefault) = true := by
    have hxe : x.isDefault = (isDef || p.isDefault) := by rw [hxP]; rfl
    rw [← hxe]
    exact hxd
  rcases hycase with hyf | ⟨hyr, himp⟩
  · rw [hyf] at hyd
    exact Bool.noConfusion hyd
  · have hry_u : ry.userId = uid := by rw [← hyuser, hyu, huuid]
    have hry_d : ry.isDefault = true := by rw [← hyr]; exact hyd
    by_cases hpd : p.isDefault = true
    · have hideq : ry.id = p.id :=
        hpre uid ry hry p hpspec.1 hry_u hry_d hpspec.2.2 hpd
      exact hyne (by rw [hyid, hideq, hpspec.2.1])
    · have hpdF : p.isDefault = false := by
        cases hb : p.isDefault
        · rfl
        · exact absurd hb hpd
      have hisDef : isDef = true := by
        rcases Bool.or_eq_true_iff.1 hxdef with h | h
        · exact h
        · exact absurd h hpd
      exact himp ⟨hisDef, hpdF⟩ ⟨hry_u, hry_d⟩

theorem updatePortfolio_preserves (db : List Portfolio) (uid pid : ℕ)
    (nm : String) (descr : Option String) (isDef : Bool) (nowMs : ℤ)
    (hpre : ∀ u, defaultsAtMostOne db u) (u : ℕ) :
    defaultsAtMostOne (updatePortfolio db uid pid nm descr isDef nowMs) u := by
  cases hp : findPortfolioOf db uid pid with
  | none =>
    have hsame : updatePortfolio db uid pid nm descr isDef nowMs = db := by
      unfold updatePortfolio
      rw [hp]
    rw [hsame]
    exact hpre u
  | some p =>
    intro x hx y hy hxu hxd hyu hyd
    rcases updatePortfolio_mem db uid pid nm descr isDef nowMs p hp x hx with
      ⟨hxP, hxpid⟩ | ⟨rx, hrx, hxid, hxuser, hxne, hxcase⟩
    · rcases updatePortfolio_mem db uid pid nm descr isDef nowMs p hp y hy with
        ⟨hyP, hypid⟩ | ⟨ry, hry, hyid, hyuser, hyne, hycase⟩
      · rw [hxpid, hypid]
      · exact absurd (updatedDoc_conflict db uid pid nm descr isDef nowMs p hp
          hpre u x y hxP hxu hxd ry hry hyid hyuser hyne hycase hyu hyd)
          (by simp)
    · rcases updatePortfolio_mem db uid pid nm descr isDef nowMs p hp y hy with
        ⟨hyP, hypid⟩ | ⟨ry, hry, hyid, hyuser, hyne, hycase⟩
      · exact absurd (updatedDoc_conflict db uid pid nm descr isDef nowMs p hp
          hpre u y x hyP hyu hyd rx hrx hxid hxuser hxne hxcase hxu hxd)
          (by simp)
      · rcases hxcase with hxf | ⟨hxr, -⟩
        · rw [hxf] at hxd
          exact Bool.noConfusion hxd
        · rcases hycase with hyf | ⟨hyr, -⟩
          · rw [hyf] at hyd
            exact Bool.noConfusion hyd
          · have h1 : rx.id = ry.id := by
              refine hpre u rx hrx ry hry ?_ ?_ ?_ ?_
              · rw [← hxuser, hxu]
              · rw [← hxr]; exact hxd
              · rw [← hyuser, hyu]
              · rw [← hyr]; exact hyd
            rw [hxid, hyid, h1]

theorem updatePortfolio_eq (db : List Portfolio) (uid pid : ℕ) (nm : String)
    (descr : Option String) (isDef : Bool) (nowMs : ℤ) (p : Portfolio)
    (hp : findPortfolioOf db uid pid = some p) :
    updatePortfolio db uid pid nm descr isDef nowMs
      = ((if isDef ∧ ¬ p.isDefault then
            db.map (fun q =>
              if q.userId = uid ∧ q.isDefault = true ∧ q.id ≠ p.id
              then { q with isDefault := false } else q)
          else db).map
          (fun q => if q.id = p.id
            then updatedPortfolioDoc p nm descr isDef nowMs else q)) := by
  unfold updatePortfolio
  rw [hp]

/-- C7: provided the at-most-one-default invariant holds beforehand (and the
created portfolio gets a fresh id), it still holds for every user after a
create and after an update; moreover, when the request sets the default
flag, the target (new portfolio on create, addressed portfolio on update)
ends up with `isDefault = true` while every previously-default portfolio of
the same owner ends up with `isDefault = false`. -/
theorem C7_default_invariant (db : List Portfolio) (uid newId pid : ℕ)
    (nm : String) (descr : Option String) (isDef : Bool) (nowMs : ℤ)
    (hpre : ∀ u, defaultsAtMostOne db u)
    (hfresh : ∀ q ∈ db, q.id ≠ newId) :
    (∀ u, defaultsAtMostOne (createPortfolio db uid newId nm descr isDef nowMs) u)
    ∧ (∀ u, defaultsAtMostOne (updatePortfolio db uid pid nm descr isDef nowMs) u)
    ∧ (∀ x ∈ createPortfolio db uid newId nm descr true nowMs,
        x.id = newId → x.isDefault = true)
    ∧ (∀ q ∈ db, q.userId = uid → q.isDefault = true →
        ∀ x ∈ createPortfolio db uid newId nm descr true nowMs,
          x.userId = uid → x.id = q.id → x.isDefault = false)
    ∧ (∀ p, findPortfolioOf db uid pid = some p →
        (∀ x ∈ updatePortfolio db uid pid nm descr true nowMs,
            x.id = pid → x.isDefault = true)
        ∧ (∀ q ∈ db, q.userId = uid → q.isDefault = true → q.id ≠ pid →
            ∀ x ∈ updatePortfolio db uid pid nm descr true nowMs,
              x.userId = uid → x.id = q.id → x.isDefault = false)) := by
  refine ⟨createPortfolio_preserves db uid newId nm descr isDef nowMs hpre,
    updatePortfolio_preserves db uid pid nm descr isDef nowMs hpre, ?_, ?_, ?_⟩
  · intro x hx hxid
    rcases createPortfolio_mem db uid newId nm descr true nowMs x hx with
      hxN | ⟨r, hr, hid, -, -⟩
    · rw [hxN]
      rfl
    · exact absurd (by rw [← hid, hxid]) (hfresh r hr)
  · intro q hq hqu hqd x hx hxu hxid
    rcases createPortfolio_mem db uid newId nm descr true nowMs x hx with
      hxN | ⟨r, hr, hid, huser, hcase⟩
    · exfalso
      have : q.id = newId := by
        rw [← hxid, hxN]
        rfl
      exact hfresh q hq this
    · rcases hcase with hxf | ⟨hxr, himp⟩
      · exact hxf
      · by_cases hxd : x.isDefault = true
        · exfalso
          obtain ⟨ex, hex⟩ := findDefaultOf_isSome hq hqu hqd
          have hexspec := findDefaultOf_spec hex
          have hrne : r.id ≠ ex.id := himp rfl ex hex
          have hr_u : r.userId = uid := by rw [← huser, hxu]
          have hr_d : r.isDefault = true := by rw [← hxr]; exact hxd
          exact hrne
            (hpre uid r hr ex hexspec.1 hr_u hr_d hexspec.2.1 hexspec.2.2)
        · cases hb : x.isDefault
          · rfl
          · exact absurd hb hxd
  · intro p hp
    have hpspec := findPortfolioOf_spec hp
    constructor
    · intro x hx hxid
      rcases updatePortfolio_mem db uid pid nm descr true nowMs p hp x hx with
        ⟨hxP, -⟩ | ⟨r, -, -, -, hne, -⟩
      · have hfld := (updatedPortfolioDoc_fields p nm descr true nowMs).2.2
        rw [hxP, hfld]
        exact Bool.true_or _
      · exact absurd hxid hne
    · intro q hq hqu hqd hqne x hx hxu hxid
      rcases updatePortfolio_mem db uid pid nm descr true nowMs p hp x hx with
        ⟨-, hxpid⟩ | ⟨r, hr, hid, huser, hne, hcase⟩
      · exact absurd (by rw [← hxid, hxpid]) (Ne.symm hqne)
      · rcases hcase with hxf | ⟨hxr, himp⟩
        · exact hxf
        · by_cases hxd : x.isDefault = true
          · exfalso
            have hr_u : r.userId = uid := by rw [← huser, hxu]
            have hr_d : r.isDefault = true := by rw [← hxr]; exact hxd
            by_cases hpd : p.isDefault = true
            · have hideq : r.id = p.id :=
                hpre uid r hr p hpspec.1 hr_u hr_d hpspec.2.2 hpd
              exact hne (by rw [hid, hideq, hpspec.2.1])
            · have hpdF : p.isDefault = false := by
                cases hb : p.isDefault
                · rfl
                · exact absurd hb hpd
              exact himp ⟨rfl, hpdF⟩ ⟨hr_u, hr_d⟩
          · cases hb : x.isDefault
            · rfl
            · exact absurd hb hxd

/-- C9: once a portfolio is default, the update route can never clear the
flag: the saved target carries `isDefault = isDefault_request ||
prior_isDefault`, so a request with the flag absent or `false` (both falsy)
leaves an already-default portfolio default. -/
theorem C9_default_sticky (db : List Portfolio) (uid pid : ℕ) (nm : String)
    (descr : Option String) (isDef : Bool) (nowMs : ℤ) (p : Portfolio)
    (hp : findPortfolioOf db uid pid = some p) :
    (∀ x ∈ updatePortfolio db uid pid nm descr isDef nowMs,
        x.id = pid → x.isDefault = (isDef || p.isDefault))
    ∧ updatedPortfolioDoc p nm descr isDef nowMs
        ∈ updatePortfolio db uid pid nm descr isDef nowMs
    ∧ (p.isDefault = true →
        ∀ x ∈ updatePortfolio db uid pid nm descr isDef nowMs,
          x.id = pid → x.isDefault = true) := by
  have hpspec := findPortfolioOf_spec hp
  have hmain : ∀ x ∈ updatePortfolio db uid pid nm descr isDef nowMs,
      x.id = pid → x.isDefault = (isDef || p.isDefault) := by
    intro x hx hxid
    rcases updatePortfolio_mem db uid pid nm descr isDef nowMs p hp x hx with
      ⟨hxP, -⟩ | ⟨r, -, -, -, hne, -⟩
    · rw [hxP]
      exact (updatedPortfolioDoc_fields p nm descr isDef nowMs).2.2
    · exact absurd hxid hne
  refine ⟨hmain, ?_, ?_⟩
  · rw [updatePortfolio_eq db uid pid nm descr isDef nowMs p hp]
    have hrepl : (fun q => if q.id = p.id
        then updatedPortfolioDoc p nm descr isDef nowMs else q) p
        = updatedPortfolioDoc p nm descr isDef nowMs := by
      simp
    by_cases hcond : isDef ∧ ¬ p.isDefault
    · rw [if_pos hcond]
      have hclr : (fun q =>
          if q.userId = uid ∧ q.isDefault = true ∧ q.id ≠ p.id
          then ({ q with isDefault := false } : Portfolio) else q) p = p := by
        have : ¬ (p.userId = uid ∧ p.isDefault = true ∧ p.id ≠ p.id) := by
          rintro ⟨-, -, hne⟩
          exact hne rfl
        simp [this]
      exact List.mem_map.2 ⟨p, List.mem_map.2 ⟨p, hpspec.1, hclr⟩, hrepl⟩
    · rw [if_neg hcond]
      exact List.mem_map.2 ⟨p, hpspec.1, hrepl⟩
  · intro hpd x hx hxid
    rw [hmain x hx hxid, hpd, Bool.or_true]

/-- A stored default portfolio of user `1` with id `1`. -/
def defaultPortfolioDoc : Portfolio :=
  { id := 1, userId := 1, name := "main", description := none,
    investments := [], totalValue := 0, totalCost := 0, updatedAtMs := 0,
    isDefault := true }

theorem C7_default_invariant_witness :
    (∀ u, defaultsAtMostOne
        (createPortfolio [defaultPortfolioDoc] 1 2 "second" none true 5) u)
    ∧ (∀ u, defaultsAtMostOne
        (updatePortfolio [defaultPortfolioDoc] 1 1 "second" none true 5) u)
    ∧ (∀ x ∈ createPortfolio [defaultPortfolioDoc] 1 2 "second" none true 5,
        x.id = 2 → x.isDefault = true)
    ∧ (∀ q ∈ [defaultPortfolioDoc], q.userId = 1 → q.isDefault = true →
        ∀ x ∈ createPortfolio [defaultPortfolioDoc] 1 2 "second" none true 5,
          x.userId = 1 → x.id = q.id → x.isDefault = false)
    ∧ (∀ p, findPortfolioOf [defaultPortfolioDoc] 1 1 = some p →
        (∀ x ∈ updatePortfolio [defaultPortfolioDoc] 1 1 "second" none true 5,
            x.id = 1 → x.isDefault = true)
        ∧ (∀ q ∈ [defaultPortfolioDoc], q.userId = 1 → q.isDefault = true →
            q.id ≠ 1 →
            ∀ x ∈ updatePortfolio [defaultPortfolioDoc] 1 1 "second" none true 5,
              x.userId = 1 → x.id = q.id → x.isDefault = false)) := by
  refine C7_default_invariant [defaultPortfolioDoc] 1 2 1 "second" none true 5
    ?_ ?_
  · intro u x hx y hy _ _ _ _
    rw [List.mem_singleton.1 hx, List.mem_singleton.1 hy]
  · intro q hq
    rw [List.mem_singleton.1 hq]
    decide

theorem C9_default_sticky_witness :
    (∀ x ∈ updatePortfolio [defaultPortfolioDoc] 1 1 "second" none false 5,
        x.id = 1 → x.isDefault = (false || defaultPortfolioDoc.isDefault))
    ∧ updatedPortfolioDoc defaultPortfolioDoc "second" none false 5
        ∈ updatePortfolio [defaultPortfolioDoc] 1 1 "second" none false 5
    ∧ (defaultPortfolioDoc.isDefault = true →
        ∀ x ∈ updatePortfolio [defaultPortfolioDoc] 1 1 "second" none false 5,
          x.id = 1 → x.isDefault = true) :=
  C9_default_sticky [defaultPortfolioDoc] 1 1 "second" none false 5
    defaultPortfolioDoc (by decide)

/-- The body of `PUT /:id/investment/:investmentId`: the optional request
fields.  A field absent from the JSON body is `none`; `purchaseDateMs` also
carries the year the new date falls in (abstracting `getFullYear`); a date
or sector that is present is a non-empty (truthy) string. -/
structure InvestmentUpdateReq where
  shares : Option ℚ
  purchasePrice : Option ℚ
  purchaseDateMs : Option (ℤ × ℤ)
  sector : Option String
  notes : Option String
deriving Repr, DecidableEq

/-- Lines `if (shares) … if (notes !== undefined) …` of the investment
update handler: numeric fields are applied only when truthy (present and
nonzero), the date and sector when present (modelled truthy), and `notes`
whenever it is not `undefined` — so `notes` alone can be set to the empty
string. -/
def applyInvestmentUpdate (inv : Investment) (r : InvestmentUpdateReq) :
    Investment :=
  let inv1 := match r.shares with
    | some s => if s ≠ 0 then { inv with shares := s } else inv
    | none => inv
  let inv2 := match r.purchasePrice with
    | some pp => if pp ≠ 0 then { inv1 with purchasePrice := pp } else inv1
    | none => inv1
  let inv3 := match r.purchaseDateMs with
    | some d => { inv2 with purchaseDateMs := d.1, purchaseYear := d.2 }
    | none => inv2
  let inv4 := match r.sector with
    | some sec => { inv3 with sector := some sec }
    | none => inv3
  match r.notes with
  | some nts => { inv4 with notes := some nts }
  | none => inv4

/-- C10: in the investment update, a numeric field whose requested value is
`0` is falsy and therefore ignored — requesting `shares = 0` or
`purchasePrice = 0` behaves exactly like omitting the field, and neither
field can ever become `0` through an update — while `notes` is compared
against `undefined`, so any present value (including the empty string) is
applied. -/
theorem C10_zero_fields_ignored (inv : Investment) (r : InvestmentUpdateReq) :
    (applyInvestmentUpdate inv { r with shares := some 0 }
        = applyInvestmentUpdate inv { r with shares := none })
    ∧ (applyInvestmentUpdate inv { r with purchasePrice := some 0 }
        = applyInvestmentUpdate inv { r with purchasePrice := none })
    ∧ (r.shares = some 0 → (applyInvestmentUpdate inv r).shares = inv.shares)
    ∧ (r.purchasePrice = some 0 →
        (applyInvestmentUpdate inv r).purchasePrice = inv.purchasePrice)
    ∧ (inv.shares ≠ 0 → (applyInvestmentUpdate inv r).shares ≠ 0)
    ∧ (inv.purchasePrice ≠ 0 →
        (applyInvestmentUpdate inv r).purchasePrice ≠ 0)
    ∧ (∀ nts, r.notes = some nts →
        (applyInvestmentUpdate inv r).notes = some nts) := by
  obtain ⟨rs, rp, rd, rsec, rn⟩ := r
  have hshares : ∀ rs' : Option ℚ,
      (applyInvestmentUpdate inv ⟨rs', rp, rd, rsec, rn⟩).shares
        = (match rs' with
            | some s => if s ≠ 0 then s else inv.shares
            | none => inv.shares) := by
    intro rs'
    cases rs' with
    | none =>
      cases rp <;> cases rd <;> cases rsec <;> cases rn <;>
        simp [applyInvestmentUpdate] <;> split <;> rfl
    | some s =>
      by_cases hs : s = 0 <;>
        cases rp <;> cases rd <;> cases rsec <;> cases rn <;>
          simp [applyInvestmentUpdate, hs] <;> split <;> rfl
  have hprice : ∀ rp' : Option ℚ,
      (applyInvestmentUpdate inv ⟨rs, rp', rd, rsec, rn⟩).purchasePrice
        = (match rp' with
            | some pp => if pp ≠ 0 then pp else inv.purchasePrice
            | none => inv.purchasePrice) := by
    intro rp'
    cases rp' with
    | none =>
      cases rs <;> cases rd <;> cases rsec <;> cases rn <;>
        simp [applyInvestmentUpdate] <;> split <;> rfl
    | some pp =>
      by_cases hp : pp = 0 <;>
        cases rs <;> cases rd <;> cases rsec <;> cases rn <;>
          simp [applyInvestmentUpdate, hp] <;> split <;> rfl
  refine ⟨?_, ?_, ?_, ?_, ?_, ?_, ?_⟩
  · cases rp <;> cases rd <;> cases rsec <;> cases rn <;>
      simp [applyInvestmentUpdate]
  · cases rs <;> cases rd <;> cases rsec <;> cases rn <;>
      simp [applyInvestmentUpdate]
  · intro h
    have h2 : rs = some 0 := h
    subst h2
    have := hshares (some 0)
    simpa using this
  · intro h
    have h2 : rp = some 0 := h
    subst h2
    have := hprice (some 0)
    simpa using this
  · intro h
    rw [hshares rs]
    cases rs with
    | none => exact h
    | some s =>
      by_cases hs : s = 0
      · simpa [hs] using h
      · simp [hs]
  · intro h
    rw [hprice rp]
    cases rp with
    | none => exact h
    | some pp =>
      by_cases hp : pp = 0
      · simpa [hp] using h
      · simp [hp]
  · intro nts hnts
    have h2 : rn = some nts := hnts
    subst h2
    cases rs <;> cases rp <;> cases rd <;> cases rsec <;>
      simp [applyInvestmentUpdate]

theorem C2_harvest_amended_witness :
    (toCandidate zeroPriceLot).totalLoss
        = ((toCandidate zeroPriceLot).purchasePrice
            - (toCandidate zeroPriceLot).currentPrice)
          * (toCandidate zeroPriceLot).shares
    ∧ (toCandidate zeroPriceLot).currentPrice
        < (toCandidate zeroPriceLot).purchasePrice :=
  (C2_harvest_amended [zeroPriceLot]).2.1 (toCandidate zeroPriceLot)
    (List.mem_singleton.mpr rfl)

/-- A lot held exactly 365 whole days at the evaluation instant
`365 * msPerDay`. -/
def boundaryLot : Investment :=
  { invId := 4, symbol := "BND", name := none, shares := 1, purchasePrice := 10,
    purchaseDateMs := 0, purchaseYear := 2020, sector := none, notes := none,
    currentPrice := 12, lastUpdatedMs := 0 }

theorem C3_holding_period_amended_witness :
    (toGainsEntry (365 * msPerDay) boundaryLot).isLongTerm = false :=
  (C3_holding_period_amended [boundaryLot] 2020 (365 * msPerDay)
      (toGainsEntry (365 * msPerDay) boundaryLot)
      (List.mem_singleton.mpr rfl)).2
    (by simp [toGainsEntry, boundaryLot])

theorem C4_unrealized_gain_amended_witness :
    (toGainsEntry 0 zeroPriceLot).unrealizedGain
      = ((toGainsEntry 0 zeroPriceLot).currentPrice
          - (toGainsEntry 0 zeroPriceLot).purchasePrice)
        * (toGainsEntry 0 zeroPriceLot).shares :=
  (C4_unrealized_gain_amended [zeroPriceLot] 2020 0 7 "X" none 1 10 none 2020
      none none).1 (toGainsEntry 0 zeroPriceLot) (List.mem_singleton.mpr rfl)

theorem C5_year_filter_witness :
    calculateGains [zeroPriceLot] 2019 0
      = { year := 2019, shortTermGains := 0, longTermGains := 0,
          totalGains := 0, investments := [] } :=
  (C5_year_filter [zeroPriceLot] 2019 0).2.2.2.2 rfl

theorem C10_zero_fields_ignored_witness :
    (applyInvestmentUpdate aaplLot
        ⟨some 0, some 0, none, none, some ""⟩).shares = aaplLot.shares
    ∧ (applyInvestmentUpdate aaplLot
        ⟨some 0, some 0, none, none, some ""⟩).purchasePrice
        = aaplLot.purchasePrice
    ∧ (applyInvestmentUpdate aaplLot
        ⟨some 0, some 0, none, none, some ""⟩).notes = some "" :=
  ⟨(C10_zero_fields_ignored aaplLot ⟨some 0, some 0, none, none, some ""⟩).2.2.1
      rfl,
   (C10_zero_fields_ignored aaplLot
      ⟨some 0, some 0, none, none, some ""⟩).2.2.2.1 rfl,
   (C10_zero_fields_ignored aaplLot
      ⟨some 0, some 0, none, none, some ""⟩).2.2.2.2.2.2 "" rfl⟩
